import Mathlib

/-!
Verification of the statistical testing module of the Music-AI-workshop
repository.  The definitions below embed the five test procedures of
stats_functions.py: the omnibus and pairwise G-tests, the Chi-Square
goodness-of-fit wrapper, the Cochran Q wrapper and the McNemar test.
Library routines (the scipy chi-square CDF and survival function) are
taken as function parameters; library computations whose code is not in
the repository (statsmodels cochrans_q, scipy chi2_contingency) are
modelled from the spec and marked as such.
-/

/-- Small constant added to every observed and expected count before the
logarithm (source: epsilon = 1e-10 in g_test and g_test_pairwise). -/
noncomputable def epsilon : ℝ := 1 / 10000000000

/-- Observed frequency vector of a categorical column: the count of each
distinct label present in the column (source: value_counts). -/
def observedCounts (col : List String) : List ℕ :=
  col.dedup.map fun c => col.count c

/-- Source form of the G statistic: the observed and expected arrays are
shifted by epsilon elementwise and combined elementwise as
G = 2 * sum(observed * log(observed / expected)). -/
noncomputable def gStatisticVec (observed : List ℕ) (expected : List ℝ) : ℝ :=
  2 * ((observed.zip expected).map fun p : ℕ × ℝ =>
    ((p.1 : ℝ) + epsilon) * Real.log (((p.1 : ℝ) + epsilon) / (p.2 + epsilon))).sum

/-- Uniform-expected form of the G statistic, as the spec states it: every
expected entry is one and the same value e. -/
noncomputable def gStatistic (observed : List ℕ) (e : ℝ) : ℝ :=
  2 * (observed.map fun o : ℕ =>
    ((o : ℝ) + epsilon) * Real.log (((o : ℝ) + epsilon) / (e + epsilon))).sum

/-- Omnibus G-test (source function g_test), parameterized by the
chi-square CDF supplied by the scipy library.  Returns the p-value only. -/
noncomputable def g_test (chi2cdf : ℝ → ℕ → ℝ) (col : List String) : ℝ :=
  let observed := observedCounts col
  let total : ℕ := observed.sum
  let expected : List ℝ :=
    List.replicate observed.length ((total : ℝ) / (observed.length : ℝ))
  let g := gStatisticVec observed expected
  let dof := observed.length - 1
  1 - chi2cdf g dof

/-- Observed counts for the pairwise G-test (source lines 109-112 of
src/stats_functions.py): the counts of the named categories that are
present in the column, padded with zeros up to length 2. -/
def observedPair (col : List String) (c1 c2 : String) : List ℕ :=
  let present := ([c1, c2].filter fun c => decide (c ∈ col)).map fun c => col.count c
  present ++ List.replicate (2 - present.length) 0

/-- Pairwise G-test (source function g_test_pairwise): the expected count
is len(df) / 3 for each of the two compared categories and the degrees of
freedom are fixed at 1.  Returns the p-value only. -/
noncomputable def g_test_pairwise (chi2cdf : ℝ → ℕ → ℝ) (col : List String) (c1 c2 : String) : ℝ :=
  let observed := observedPair col c1 c2
  let total : ℕ := col.length
  let expected : List ℝ := List.replicate 2 ((total : ℝ) / 3)
  let g := gStatisticVec observed expected
  let dof := 1
  1 - chi2cdf g dof

lemma zip_replicate_self (l : List ℕ) (e : ℝ) :
    l.zip (List.replicate l.length e) = l.map fun o => (o, e) := by
  induction l with
  | nil => rfl
  | cons a t ih => simp [List.replicate_succ, ih]

lemma gStatisticVec_replicate (observed : List ℕ) (e : ℝ) :
    gStatisticVec observed (List.replicate observed.length e) = gStatistic observed e := by
  unfold gStatisticVec gStatistic
  rw [zip_replicate_self, List.map_map]
  rfl

lemma observedPair_length (col : List String) (c1 c2 : String) :
    (observedPair col c1 c2).length = 2 := by
  unfold observedPair
  have h : (([c1, c2].filter fun c => decide (c ∈ col)).map fun c => col.count c).length ≤ 2 := by
    rw [List.length_map]
    exact le_trans (List.length_filter_le _ _) (by simp)
  simp only [List.length_append, List.length_replicate]
  omega

/-- C2: the omnibus G-test counts exactly the distinct labels present in
the column, uses the uniform expected count (sum of observed) / (number of
distinct labels) for every label, applies the epsilon shift inside the
G statistic, uses dof = (number of distinct labels) - 1, and returns the
p-value 1 - chi2cdf(G, dof). -/
theorem g_test_formula (chi2cdf : ℝ → ℕ → ℝ) (col : List String) :
    observedCounts col = col.dedup.map (fun c => col.count c) ∧
    g_test chi2cdf col =
      1 - chi2cdf
        (gStatistic (observedCounts col)
          (((observedCounts col).sum : ℝ) / (col.dedup.length : ℝ)))
        (col.dedup.length - 1) := by
  refine ⟨rfl, ?_⟩
  show 1 - chi2cdf
      (gStatisticVec (observedCounts col)
        (List.replicate (observedCounts col).length
          (((observedCounts col).sum : ℝ) / ((observedCounts col).length : ℝ))))
      ((observedCounts col).length - 1) = _
  rw [gStatisticVec_replicate]
  have hlen : (observedCounts col).length = col.dedup.length := by
    unfold observedCounts; rw [List.length_map]
  rw [hlen]

/-- C1: the pairwise G-test uses the expected count (total row count) / 3
for each of the two compared categories, uses exactly one degree of
freedom, and returns the p-value 1 - chi2cdf(G, 1), not G itself. -/
theorem g_test_pairwise_formula (chi2cdf : ℝ → ℕ → ℝ) (col : List String) (c1 c2 : String) :
    g_test_pairwise chi2cdf col c1 c2 =
      1 - chi2cdf (gStatistic (observedPair col c1 c2) ((col.length : ℝ) / 3)) 1 := by
  show 1 - chi2cdf
      (gStatisticVec (observedPair col c1 c2) (List.replicate 2 ((col.length : ℝ) / 3))) 1 = _
  rw [← observedPair_length col c1 c2, gStatisticVec_replicate]

lemma gStatisticVec_pair (obs : List ℕ) (e : ℝ) (h : obs.length = 2) :
    gStatisticVec obs (List.replicate 2 e) = gStatistic obs e := by
  rw [← h, gStatisticVec_replicate]

lemma observedPair_both {col : List String} {c1 c2 : String}
    (h1 : c1 ∈ col) (h2 : c2 ∈ col) :
    observedPair col c1 c2 = [col.count c1, col.count c2] := by
  simp [observedPair, h1, h2]

/-- C3: when one of the two named categories has zero occurrences in the
column the pairwise G-test still produces a length-2 observed vector that
contains the absent category as a zero count, and the returned value is
still the p-value computed from that padded vector. -/
theorem g_test_pairwise_absent (chi2cdf : ℝ → ℕ → ℝ) (col : List String) (c1 c2 : String)
    (h : c1 ∉ col ∨ c2 ∉ col) :
    (observedPair col c1 c2).length = 2 ∧ (0 : ℕ) ∈ observedPair col c1 c2 ∧
      g_test_pairwise chi2cdf col c1 c2 =
        1 - chi2cdf (gStatisticVec (observedPair col c1 c2)
          (List.replicate 2 ((col.length : ℝ) / 3))) 1 := by
  refine ⟨observedPair_length col c1 c2, ?_, rfl⟩
  by_cases h1 : c1 ∈ col <;> by_cases h2 : c2 ∈ col <;>
    simp [observedPair, h1, h2] at h ⊢

/-- Closed witness for the C3 theorem: category C is absent from the
column, yet the observed vector is [2, 0] and the call completes. -/
theorem g_test_pairwise_absent_witness :
    (observedPair ["A", "A", "B"] "A" "C").length = 2 ∧
      (0 : ℕ) ∈ observedPair ["A", "A", "B"] "A" "C" ∧
      g_test_pairwise (fun _ _ => 0) ["A", "A", "B"] "A" "C" =
        1 - (fun _ _ => (0 : ℝ)) (gStatisticVec (observedPair ["A", "A", "B"] "A" "C")
          (List.replicate 2 (((["A", "A", "B"] : List String).length : ℝ) / 3))) 1 :=
  g_test_pairwise_absent (fun _ _ => 0) ["A", "A", "B"] "A" "C" (Or.inr (by decide))

lemma gStatistic_pair_comm (a b : ℕ) (e : ℝ) :
    gStatistic [a, b] e = gStatistic [b, a] e := by
  unfold gStatistic
  simp only [List.map_cons, List.map_nil, List.sum_cons, List.sum_nil]
  ring

/-- C10: swapping the two compared categories leaves both the G statistic
and the returned p-value of the pairwise G-test unchanged, provided both
categories occur in the column. -/
theorem g_test_pairwise_swap (chi2cdf : ℝ → ℕ → ℝ) (col : List String) (c1 c2 : String)
    (h1 : c1 ∈ col) (h2 : c2 ∈ col) :
    gStatistic (observedPair col c1 c2) ((col.length : ℝ) / 3) =
        gStatistic (observedPair col c2 c1) ((col.length : ℝ) / 3) ∧
      g_test_pairwise chi2cdf col c1 c2 = g_test_pairwise chi2cdf col c2 c1 := by
  have hg : gStatistic (observedPair col c1 c2) ((col.length : ℝ) / 3) =
      gStatistic (observedPair col c2 c1) ((col.length : ℝ) / 3) := by
    rw [observedPair_both h1 h2, observedPair_both h2 h1]
    exact gStatistic_pair_comm _ _ _
  refine ⟨hg, ?_⟩
  show 1 - chi2cdf
      (gStatisticVec (observedPair col c1 c2) (List.replicate 2 ((col.length : ℝ) / 3))) 1 =
    1 - chi2cdf
      (gStatisticVec (observedPair col c2 c1) (List.replicate 2 ((col.length : ℝ) / 3))) 1
  rw [gStatisticVec_pair _ _ (observedPair_length col c1 c2),
    gStatisticVec_pair _ _ (observedPair_length col c2 c1), hg]

/-- Closed witness for the C10 theorem at a concrete column in which both
categories occur. -/
theorem g_test_pairwise_swap_witness :
    gStatistic (observedPair ["A", "B", "B", "C"] "A" "B")
        (((["A", "B", "B", "C"] : List String).length : ℝ) / 3) =
      gStatistic (observedPair ["A", "B", "B", "C"] "B" "A")
        (((["A", "B", "B", "C"] : List String).length : ℝ) / 3) ∧
      g_test_pairwise (fun _ _ => 0) ["A", "B", "B", "C"] "A" "B" =
        g_test_pairwise (fun _ _ => 0) ["A", "B", "B", "C"] "B" "A" :=
  g_test_pairwise_swap (fun _ _ => 0) ["A", "B", "B", "C"] "A" "B" (by decide) (by decide)

lemma epsilon_pos : 0 < epsilon := by
  unfold epsilon; norm_num

lemma mul_log_div_ge {x y : ℝ} (hx : 0 < x) (hy : 0 < y) :
    x - y ≤ x * Real.log (x / y) := by
  have h1 : Real.log (y / x) ≤ y / x - 1 := Real.log_le_sub_one_of_pos (div_pos hy hx)
  have h2 : Real.log (x / y) = - Real.log (y / x) := by
    rw [Real.log_div hx.ne' hy.ne', Real.log_div hy.ne' hx.ne']; ring
  have h3 : x * Real.log (y / x) ≤ x * (y / x - 1) :=
    mul_le_mul_of_nonneg_left h1 hx.le
  have h4 : x * (y / x - 1) = y - x := by field_simp
  rw [h2, mul_neg]
  linarith

lemma sum_map_cast_add_eps (l : List ℕ) :
    (l.map fun o : ℕ => (o : ℝ) + epsilon).sum = (l.sum : ℝ) + l.length * epsilon := by
  induction l with
  | nil => simp
  | cons a t ih => simp [ih]; ring

lemma sum_map_sub_const (l : List ℕ) (f : ℕ → ℝ) (c : ℝ) :
    (l.map fun o : ℕ => f o - c).sum = (l.map f).sum - l.length * c := by
  induction l with
  | nil => simp
  | cons a t ih => simp [ih]; ring

lemma gStatistic_nonneg (observed : List ℕ) (e : ℝ) (he : 0 ≤ e)
    (hsum : (observed.sum : ℝ) + observed.length * epsilon =
      observed.length * (e + epsilon)) :
    0 ≤ gStatistic observed e := by
  unfold gStatistic
  have hterm : ∀ o ∈ observed,
      ((o : ℝ) + epsilon) - (e + epsilon) ≤
        ((o : ℝ) + epsilon) * Real.log (((o : ℝ) + epsilon) / (e + epsilon)) := by
    intro o _
    have h0 : (0 : ℝ) ≤ (o : ℝ) := Nat.cast_nonneg o
    have h1 := epsilon_pos
    exact mul_log_div_ge (by linarith) (by linarith)
  have hle := List.sum_le_sum hterm
  have hlow : (observed.map fun o : ℕ => ((o : ℝ) + epsilon) - (e + epsilon)).sum = 0 := by
    rw [sum_map_sub_const observed (fun o : ℕ => (o : ℝ) + epsilon) (e + epsilon),
      sum_map_cast_add_eps]
    linarith
  rw [hlow] at hle
  linarith

lemma gTestG_nonneg (obs : List ℕ) :
    0 ≤ gStatistic obs ((obs.sum : ℝ) / (obs.length : ℝ)) := by
  rcases obs with _ | ⟨a, t⟩
  · simp [gStatistic]
  · set l := a :: t with hl
    have hlen : (0 : ℝ) < (l.length : ℝ) := by
      rw [hl, List.length_cons]
      exact_mod_cast Nat.succ_pos t.length
    apply gStatistic_nonneg
    · positivity
    · rw [mul_add, mul_div_cancel₀ _ hlen.ne']

/-- Counterexample for C8: on the column [A, B, C, C, C, C] the pairwise
G statistic computed by g_test_pairwise for categories A and B is
strictly negative, because both observed counts (1 and 1) lie far below
the expected count 6 / 3 = 2. -/
theorem g_test_pairwise_statistic_neg :
    gStatisticVec (observedPair ["A", "B", "C", "C", "C", "C"] "A" "B")
      (List.replicate 2 (((["A", "B", "C", "C", "C", "C"] : List String).length : ℝ) / 3)) < 0 := by
  have hobs : observedPair ["A", "B", "C", "C", "C", "C"] "A" "B" = [1, 1] := by rfl
  have h6 : (((["A", "B", "C", "C", "C", "C"] : List String).length : ℕ) : ℝ) = 6 := by
    norm_num
  rw [hobs] at *
  rw [h6, gStatisticVec_pair [1, 1] ((6 : ℝ) / 3) rfl]
  unfold gStatistic
  simp only [List.map_cons, List.map_nil, List.sum_cons, List.sum_nil, Nat.cast_one]
  have heps := epsilon_pos
  have hx : (0 : ℝ) < 1 + epsilon := by linarith
  have hy : (0 : ℝ) < 6 / 3 + epsilon := by linarith
  have harg : (1 + epsilon) / (6 / 3 + epsilon) < 1 := by
    rw [div_lt_one hy]; linarith
  have hlog : Real.log ((1 + epsilon) / (6 / 3 + epsilon)) < 0 :=
    Real.log_neg (div_pos hx hy) harg
  have hterm : (1 + epsilon) * Real.log ((1 + epsilon) / (6 / 3 + epsilon)) < 0 :=
    mul_neg_of_pos_of_neg hx hlog
  linarith

/-- Image of one cell under numpy astype(bool) compared back as a number:
zero stays zero, every other value becomes one. -/
def boolCast (x : ℚ) : ℚ := if x = 0 then 0 else 1

/-- Source validation of perform_cochran_q_test (line 28): the data array
equals its boolean cast, elementwise. -/
def binaryCheck (rows : List (List ℚ)) : Bool :=
  decide (rows = rows.map fun r => r.map boolCast)

/-- Number of treatments k: the number of columns of the matrix. -/
def cochranK (rows : List (List ℚ)) : ℕ := (rows.headD []).length

/-- Column sum of a row-major matrix. -/
def colSumQ (rows : List (List ℚ)) (j : ℕ) : ℚ :=
  (rows.map fun r => r.getD j 0).sum

/-- Modelled from the spec: the statsmodels cochrans_q computation is not
part of the repository, so the standard closed-form Cochran Q statistic
described in the spec is used: Q = (k-1)(k * sum of squared column sums -
N^2) / (k * N - sum of squared row sums), with N the grand total. -/
def cochransQ (rows : List (List ℚ)) : ℚ :=
  ((cochranK rows : ℚ) - 1) *
      ((cochranK rows : ℚ) * (∑ j ∈ Finset.range (cochranK rows), (colSumQ rows j) ^ 2) -
        ((rows.map List.sum).sum) ^ 2) /
    ((cochranK rows : ℚ) * (rows.map List.sum).sum - (rows.map fun r => r.sum ^ 2).sum)

/-- Error message of the Cochran Q validation. -/
def cochranErrMsg : String := "Data must be binary (0 or 1) for Cochrans Q test."

/-- Cochran Q wrapper (source function perform_cochran_q_test): validates
that the matrix is binary before any statistic is computed and only then
computes the Q statistic. -/
def perform_cochran_q_test (rows : List (List ℚ)) : Except String ℚ :=
  if binaryCheck rows then Except.ok (cochransQ rows) else Except.error cochranErrMsg

lemma map_eq_self_aux {α : Type} (l : List α) (f : α → α) :
    l.map f = l ↔ ∀ x ∈ l, f x = x := by
  induction l with
  | nil => simp
  | cons a t ih => simp [ih]

lemma boolCast_fix (x : ℚ) : boolCast x = x ↔ x = 0 ∨ x = 1 := by
  unfold boolCast
  by_cases h : x = 0 <;> simp [h, eq_comm]

lemma binaryCheck_iff (rows : List (List ℚ)) :
    binaryCheck rows = true ↔ ∀ r ∈ rows, ∀ x ∈ r, x = 0 ∨ x = 1 := by
  unfold binaryCheck
  rw [decide_eq_true_eq, eq_comm, map_eq_self_aux]
  refine forall_congr' fun r => forall_congr' fun _ => ?_
  rw [map_eq_self_aux]
  exact forall_congr' fun x => forall_congr' fun _ => boolCast_fix x

/-- C4: the Cochran Q wrapper fails with the invalid-input error exactly
when some cell of the matrix differs from both 0 and 1, and in exactly
the complementary case it returns the Q statistic; the validation guards
the computation, so in the error case no statistic is produced. -/
theorem cochran_validation (rows : List (List ℚ)) :
    (perform_cochran_q_test rows = Except.error cochranErrMsg ↔
      ∃ r ∈ rows, ∃ x ∈ r, x ≠ 0 ∧ x ≠ 1) ∧
    (perform_cochran_q_test rows = Except.ok (cochransQ rows) ↔
      ∀ r ∈ rows, ∀ x ∈ r, x = 0 ∨ x = 1) := by
  have hiff := binaryCheck_iff rows
  cases hb : binaryCheck rows with
  | true =>
    have hall : ∀ r ∈ rows, ∀ x ∈ r, x = 0 ∨ x = 1 := hiff.mp hb
    have hres : perform_cochran_q_test rows = Except.ok (cochransQ rows) := by
      unfold perform_cochran_q_test; rw [hb]; simp
    rw [hres]
    constructor
    · constructor
      · intro hcontra; exact absurd hcontra (by simp)
      · rintro ⟨r, hr, x, hx, hx0, hx1⟩
        rcases hall r hr x hx with h0 | h1
        · exact absurd h0 hx0
        · exact absurd h1 hx1
    · exact ⟨fun _ => hall, fun _ => rfl⟩
  | false =>
    have hnot : ¬ ∀ r ∈ rows, ∀ x ∈ r, x = 0 ∨ x = 1 := by
      intro hall
      have := hiff.mpr hall
      rw [hb] at this
      exact Bool.false_ne_true this
    have hex : ∃ r ∈ rows, ∃ x ∈ r, x ≠ 0 ∧ x ≠ 1 := by
      push_neg at hnot
      exact hnot
    have hres : perform_cochran_q_test rows = Except.error cochranErrMsg := by
      unfold perform_cochran_q_test; rw [hb]; simp
    rw [hres]
    constructor
    · exact ⟨fun _ => hex, fun _ => rfl⟩
    · constructor
      · intro hcontra; exact absurd hcontra (by simp)
      · intro hall
        exact absurd hall hnot

lemma list_sum_getD (r : List ℚ) :
    r.sum = ∑ j ∈ Finset.range r.length, r.getD j 0 := by
  induction r with
  | nil => simp
  | cons a t ih =>
    rw [List.length_cons, Finset.sum_range_succ']
    simp only [List.getD_cons_succ, List.getD_cons_zero]
    rw [List.sum_cons, ← ih]
    ring

lemma colSumQ_cons (r : List ℚ) (rs : List (List ℚ)) (j : ℕ) :
    colSumQ (r :: rs) j = r.getD j 0 + colSumQ rs j := by
  unfold colSumQ
  rw [List.map_cons, List.sum_cons]

lemma sum_rowSums (rows : List (List ℚ)) (k : ℕ) (h : ∀ r ∈ rows, r.length = k) :
    (rows.map List.sum).sum = ∑ j ∈ Finset.range k, colSumQ rows j := by
  induction rows with
  | nil => simp [colSumQ]
  | cons r rs ih =>
    have hr : r.length = k := h r (List.mem_cons_self r rs)
    have hrs : ∀ r' ∈ rs, r'.length = k := fun r' hr' => h r' (List.mem_cons_of_mem r hr')
    simp only [List.map_cons, List.sum_cons]
    rw [ih hrs, list_sum_getD r, hr]
    simp_rw [colSumQ_cons]
    rw [Finset.sum_add_distrib]

lemma den_split (rows : List (List ℚ)) (k : ℕ) :
    (k : ℚ) * (rows.map List.sum).sum - (rows.map fun r => r.sum ^ 2).sum =
      (rows.map fun r => (k : ℚ) * r.sum - r.sum ^ 2).sum := by
  induction rows with
  | nil => simp
  | cons r rs ih =>
    simp only [List.map_cons, List.sum_cons]
    rw [← ih]
    ring

lemma binary_row_sum_bounds (r : List ℚ) :
    (∀ x ∈ r, x = 0 ∨ x = 1) → 0 ≤ r.sum ∧ r.sum ≤ (r.length : ℚ) := by
  induction r with
  | nil => intro _; simp
  | cons a t ih =>
    intro h
    have ha := h a (List.mem_cons_self a t)
    obtain ⟨h1, h2⟩ := ih fun x hx => h x (List.mem_cons_of_mem a hx)
    rw [List.sum_cons, List.length_cons]
    push_cast
    rcases ha with h0 | h0 <;> rw [h0] <;> constructor <;> linarith

lemma cochranK_zero_sum (rows : List (List ℚ))
    (hrect : ∀ r ∈ rows, r.length = cochranK rows) (hk0 : cochranK rows = 0) :
    (rows.map List.sum).sum = 0 := by
  apply List.sum_eq_zero
  intro x hx
  rw [List.mem_map] at hx
  obtain ⟨r, hr, hxr⟩ := hx
  have hrl : r.length = 0 := by rw [hrect r hr]; exact hk0
  rw [List.length_eq_zero] at hrl
  rw [← hxr, hrl]
  rfl

lemma cochransQ_nonneg (rows : List (List ℚ))
    (hbin : ∀ r ∈ rows, ∀ x ∈ r, x = 0 ∨ x = 1)
    (hrect : ∀ r ∈ rows, r.length = cochranK rows) :
    0 ≤ cochransQ rows := by
  unfold cochransQ
  rcases Nat.eq_zero_or_pos (cochranK rows) with hk0 | hkpos
  · rw [hk0, cochranK_zero_sum rows hrect hk0]
    simp
  · have hnum : 0 ≤ (cochranK rows : ℚ) *
        (∑ j ∈ Finset.range (cochranK rows), (colSumQ rows j) ^ 2) -
        ((rows.map List.sum).sum) ^ 2 := by
      have hcs := sq_sum_le_card_mul_sum_sq
        (s := Finset.range (cochranK rows)) (f := fun j => colSumQ rows j)
      rw [Finset.card_range] at hcs
      rw [sum_rowSums rows (cochranK rows) hrect]
      linarith
    have hden : 0 ≤ (cochranK rows : ℚ) * (rows.map List.sum).sum -
        (rows.map fun r => r.sum ^ 2).sum := by
      rw [den_split]
      apply List.sum_nonneg
      intro x hx
      rw [List.mem_map] at hx
      obtain ⟨r, hr, rfl⟩ := hx
      obtain ⟨h1, h2⟩ := binary_row_sum_bounds r (hbin r hr)
      rw [hrect r hr] at h2
      nlinarith
    have hk1 : (1 : ℚ) ≤ (cochranK rows : ℚ) := by exact_mod_cast hkpos
    exact div_nonneg (mul_nonneg (by linarith) hnum) hden

lemma cochransQ_identical (rows : List (List ℚ))
    (hrect : ∀ r ∈ rows, r.length = cochranK rows)
    (hconst : ∀ r ∈ rows, ∀ j1, j1 < cochranK rows → ∀ j2, j2 < cochranK rows →
      r.getD j1 0 = r.getD j2 0) :
    cochransQ rows = 0 := by
  unfold cochransQ
  rcases Nat.eq_zero_or_pos (cochranK rows) with hk0 | hkpos
  · rw [hk0, cochranK_zero_sum rows hrect hk0]
    simp
  · have hcol : ∀ j, j < cochranK rows → colSumQ rows j = colSumQ rows 0 := by
      intro j hj
      unfold colSumQ
      congr 1
      apply List.map_congr_left
      intro r hr
      exact hconst r hr j hj 0 hkpos
    have hsum2 : (∑ j ∈ Finset.range (cochranK rows), (colSumQ rows j) ^ 2) =
        (cochranK rows : ℚ) * (colSumQ rows 0) ^ 2 := by
      rw [Finset.sum_congr rfl fun j hj => by rw [hcol j (Finset.mem_range.mp hj)]]
      rw [Finset.sum_const, Finset.card_range, nsmul_eq_mul]
    have hN : (rows.map List.sum).sum = (cochranK rows : ℚ) * colSumQ rows 0 := by
      rw [sum_rowSums rows (cochranK rows) hrect]
      rw [Finset.sum_congr rfl fun j hj => by rw [hcol j (Finset.mem_range.mp hj)]]
      rw [Finset.sum_const, Finset.card_range, nsmul_eq_mul]
    rw [hsum2, hN]
    have hz : (cochranK rows : ℚ) * ((cochranK rows : ℚ) * (colSumQ rows 0) ^ 2) -
        ((cochranK rows : ℚ) * colSumQ rows 0) ^ 2 = 0 := by ring
    rw [hz, mul_zero, zero_div]

/-- C7: for a rectangular binary matrix that passes the validation, the
wrapper returns the Q statistic, the Q statistic is nonnegative, and if
all columns of the matrix are identical the statistic is zero. -/
theorem cochran_q_nonneg_identical (rows : List (List ℚ))
    (hbin : binaryCheck rows = true)
    (hrect : ∀ r ∈ rows, r.length = cochranK rows) :
    perform_cochran_q_test rows = Except.ok (cochransQ rows) ∧
    0 ≤ cochransQ rows ∧
    ((∀ r ∈ rows, ∀ j1, j1 < cochranK rows → ∀ j2, j2 < cochranK rows →
        r.getD j1 0 = r.getD j2 0) → cochransQ rows = 0) := by
  have hbin' := (binaryCheck_iff rows).mp hbin
  refine ⟨?_, cochransQ_nonneg rows hbin' hrect,
    fun hconst => cochransQ_identical rows hrect hconst⟩
  unfold perform_cochran_q_test
  rw [hbin]
  simp

/-- Closed witness for the C7 theorem on a concrete 2 by 2 binary matrix. -/
theorem cochran_q_nonneg_identical_witness :
    perform_cochran_q_test [[1, 1], [0, 0]] = Except.ok (cochransQ [[1, 1], [0, 0]]) ∧
    0 ≤ cochransQ [[1, 1], [0, 0]] ∧
    ((∀ r ∈ ([[1, 1], [0, 0]] : List (List ℚ)), ∀ j1,
        j1 < cochranK [[1, 1], [0, 0]] → ∀ j2, j2 < cochranK [[1, 1], [0, 0]] →
        r.getD j1 0 = r.getD j2 0) → cochransQ [[1, 1], [0, 0]] = 0) :=
  cochran_q_nonneg_identical [[1, 1], [0, 0]] (by decide) (by decide)

/-- Grand total of a row-major table. -/
def grandTotalQ (tab : List (List ℚ)) : ℚ := (tab.map List.sum).sum

/-- Modelled from the spec: the scipy chi2_contingency computation is not
part of the repository; the standard contingency chi-square statistic is
used, with expected counts (row sum) * (column sum) / (grand total). -/
def chi2ContingencyStat (tab : List (List ℚ)) : ℚ :=
  ∑ i ∈ Finset.range tab.length, ∑ j ∈ Finset.range (tab.headD []).length,
    ((tab.getD i []).getD j 0 -
        (tab.getD i []).sum * colSumQ tab j / grandTotalQ tab) ^ 2 /
      ((tab.getD i []).sum * colSumQ tab j / grandTotalQ tab)

/-- Modelled from the spec: degrees of freedom of the contingency test,
(number of rows - 1) * (number of columns - 1). -/
def chi2ContingencyDof (tab : List (List ℚ)) : ℕ :=
  (tab.length - 1) * ((tab.headD []).length - 1)

/-- Chi-Square goodness-of-fit wrapper (source function perform_chi2_test
of stats_functions.py): stacks the observed counts over the distinct
labels of the column and the uniform expected counts n/m into a 2 x m
table, runs the contingency computation on it, and returns the p-value
only. -/
noncomputable def perform_chi2_test (chi2cdf : ℚ → ℕ → ℝ) (col : List String) : ℝ :=
  let observed : List ℚ := (observedCounts col).map fun o : ℕ => (o : ℚ)
  let total : ℚ := (col.length : ℚ)
  let m : ℕ := observed.length
  let expectedFrequency : ℚ := total / (m : ℚ)
  let expected : List ℚ := List.replicate m expectedFrequency
  1 - chi2cdf (chi2ContingencyStat [observed, expected])
    (chi2ContingencyDof [observed, expected])

lemma chi2ContingencyDof_pair (a b : List ℚ) :
    chi2ContingencyDof [a, b] = a.length - 1 := by
  unfold chi2ContingencyDof
  simp

/-- C6: the Chi-Square goodness-of-fit wrapper builds the expected vector
with the exact value n/m in every one of its m entries, the degrees of
freedom of the stacked 2 x m table are m - 1, and the function returns the
p-value only. -/
theorem chi2_test_formula (chi2cdf : ℚ → ℕ → ℝ) (col : List String) :
    perform_chi2_test chi2cdf col =
      1 - chi2cdf
        (chi2ContingencyStat [(observedCounts col).map fun o : ℕ => (o : ℚ),
          List.replicate col.dedup.length ((col.length : ℚ) / (col.dedup.length : ℚ))])
        (col.dedup.length - 1) ∧
    chi2ContingencyDof [(observedCounts col).map fun o : ℕ => (o : ℚ),
        List.replicate col.dedup.length ((col.length : ℚ) / (col.dedup.length : ℚ))] =
      col.dedup.length - 1 := by
  have hm : ((observedCounts col).map fun o : ℕ => (o : ℚ)).length = col.dedup.length := by
    rw [List.length_map]
    unfold observedCounts
    rw [List.length_map]
  constructor
  · show 1 - chi2cdf
        (chi2ContingencyStat [(observedCounts col).map fun o : ℕ => (o : ℚ),
          List.replicate ((observedCounts col).map fun o : ℕ => (o : ℚ)).length
            ((col.length : ℚ) / ((((observedCounts col).map fun o : ℕ => (o : ℚ)).length : ℕ) : ℚ))])
        (chi2ContingencyDof [(observedCounts col).map fun o : ℕ => (o : ℚ),
          List.replicate ((observedCounts col).map fun o : ℕ => (o : ℚ)).length
            ((col.length : ℚ) / ((((observedCounts col).map fun o : ℕ => (o : ℚ)).length : ℕ) : ℚ))]) = _
    rw [chi2ContingencyDof_pair, hm]
  · rw [chi2ContingencyDof_pair, hm]

/-- Model of the pandas DataFrame mutated by the McNemar test: a fixed
row count (the length of the index) and an ordered association list of
named integer columns. -/
structure Df where
  n : ℕ
  cols : List (String × List ℤ)

/-- Column lookup by name; a missing column reads as the empty column. -/
def getCol : List (String × List ℤ) → String → List ℤ
  | [], _ => []
  | (nm, v) :: rest, s => if nm = s then v else getCol rest s

/-- Column assignment, as pandas does it: overwrite an existing column in
place, otherwise append the new column at the end. -/
def setCol : List (String × List ℤ) → String → List ℤ → List (String × List ℤ)
  | [], s, v => [(s, v)]
  | (nm, w) :: rest, s, v =>
    if nm = s then (nm, v) :: rest else (nm, w) :: setCol rest s v

def Df.get (df : Df) (s : String) : List ℤ := getCol df.cols s

def Df.set (df : Df) (s : String) (v : List ℤ) : Df := ⟨df.n, setCol df.cols s v⟩

/-- Sum of the named question columns in one row (source:
df[questions].sum(axis=1) at a single index). -/
def rowSumAt (df : Df) (qs : List String) (i : ℕ) : ℤ :=
  (qs.map fun q => (df.get q).getD i 0).sum

/-- Per-subject sums of the named question columns. -/
def sumColumn (df : Df) (qs : List String) : List ℤ :=
  (List.range df.n).map (rowSumAt df qs)

/-- Thresholded boolean column (True encoded as 1, False as 0). -/
def threshCol (v : List ℤ) (t : ℤ) : List ℤ :=
  v.map fun x => if t ≤ x then 1 else 0

/-- Steps 1-2 of calculate_mcnemar_test: write the image_correct and
sound_correct per-subject sums onto the table. -/
def addCorrect (df : Df) (imgQ sndQ : List String) : Df :=
  let df1 := df.set "image_correct" (sumColumn df imgQ)
  df1.set "sound_correct" (sumColumn df1 sndQ)

/-- Step 2 of calculate_mcnemar_test: write the image_high and sound_high
thresholded boolean columns onto the table. -/
def addHigh (df : Df) (t : ℤ) : Df :=
  let df3 := df.set "image_high" (threshCol (df.get "image_correct") t)
  df3.set "sound_high" (threshCol (df3.get "sound_correct") t)

/-- The table state after the four column writes of
calculate_mcnemar_test. -/
def mcnemarDf (df : Df) (imgQ sndQ : List String) (t : ℤ) : Df :=
  addHigh (addCorrect df imgQ sndQ) t

/-- The four cell counts (a, b, c, d) of the McNemar 2 x 2 contingency
table, tallied from the derived boolean columns. -/
def mcnemarCounts (df : Df) (imgQ sndQ : List String) (t : ℤ) : ℕ × ℕ × ℕ × ℕ :=
  let df4 := mcnemarDf df imgQ sndQ t
  let pairs := (df4.get "image_high").zip (df4.get "sound_high")
  (pairs.countP fun p => p.1 == 1 && p.2 == 1,
   pairs.countP fun p => p.1 == 1 && p.2 == 0,
   pairs.countP fun p => p.1 == 0 && p.2 == 1,
   pairs.countP fun p => p.1 == 0 && p.2 == 0)

/-- McNemar statistic without continuity correction (source line 188):
(b - c)^2 / (b + c), and exactly 0 when b + c = 0. -/
def mcnemarStatistic (b c : ℕ) : ℚ :=
  if b + c = 0 then 0 else ((b : ℚ) - (c : ℚ)) ^ 2 / ((b : ℚ) + (c : ℚ))

/-- McNemar test (source function calculate_mcnemar_test), parameterized
by the chi-square(1) survival function supplied by the scipy library.
Returns the mutated table together with the contingency counts, the
statistic and the p-value. -/
def calculate_mcnemar_test (chi2sf1 : ℚ → ℝ) (df : Df) (imgQ sndQ : List String)
    (t : ℤ) : Df × (ℕ × ℕ × ℕ × ℕ) × ℚ × ℝ :=
  let df4 := mcnemarDf df imgQ sndQ t
  let counts := mcnemarCounts df imgQ sndQ t
  let stat := mcnemarStatistic counts.2.1 counts.2.2.1
  (df4, counts, stat, chi2sf1 stat)

lemma getCol_setCol_self (cs : List (String × List ℤ)) (s : String) (v : List ℤ) :
    getCol (setCol cs s v) s = v := by
  induction cs with
  | nil => simp [setCol, getCol]
  | cons p rest ih =>
    obtain ⟨nm, w⟩ := p
    by_cases h : nm = s <;> simp [setCol, getCol, h, ih]

lemma getCol_setCol_ne (cs : List (String × List ℤ)) (s s' : String) (v : List ℤ)
    (h : s' ≠ s) : getCol (setCol cs s v) s' = getCol cs s' := by
  induction cs with
  | nil =>
    have hns : ¬ s = s' := fun hc => h hc.symm
    simp [setCol, getCol, hns]
  | cons p rest ih =>
    obtain ⟨nm, w⟩ := p
    by_cases h1 : nm = s
    · subst h1
      have h2 : ¬ nm = s' := fun hc => h (hc.symm.trans rfl)
      simp [setCol, getCol, h2]
    · simp only [setCol, if_neg h1]
      by_cases h2 : nm = s' <;> simp [getCol, h2, ih]

lemma setCol_getCol_mem (cs : List (String × List ℤ)) (s : String)
    (h : s ∈ cs.map Prod.fst) : setCol cs s (getCol cs s) = cs := by
  induction cs with
  | nil => simp at h
  | cons p rest ih =>
    obtain ⟨nm, w⟩ := p
    by_cases h1 : nm = s
    · subst h1
      simp [setCol, getCol]
    · have hmem : s ∈ rest.map Prod.fst := by
        rcases List.mem_cons.mp h with h' | h'
        · exact absurd h'.symm h1
        · exact h'
      simp [setCol, getCol, h1, ih hmem]

lemma mem_setCol_self (cs : List (String × List ℤ)) (s : String) (v : List ℤ) :
    s ∈ (setCol cs s v).map Prod.fst := by
  induction cs with
  | nil => simp [setCol]
  | cons p rest ih =>
    obtain ⟨nm, w⟩ := p
    by_cases h : nm = s <;> simp [setCol, h, ih]

lemma mem_setCol_of_mem (cs : List (String × List ℤ)) (s s' : String) (v : List ℤ)
    (h : s' ∈ cs.map Prod.fst) : s' ∈ (setCol cs s v).map Prod.fst := by
  induction cs with
  | nil => simp at h
  | cons p rest ih =>
    obtain ⟨nm, w⟩ := p
    by_cases h1 : nm = s
    · simpa [setCol, h1] using h
    · rcases List.mem_cons.mp h with h' | h'
      · simp [setCol, h1, h']
      · simp [setCol, h1, ih h']

lemma Df.get_set_self (df : Df) (s : String) (v : List ℤ) : (df.set s v).get s = v :=
  getCol_setCol_self df.cols s v

lemma Df.get_set_ne (df : Df) (s s' : String) (v : List ℤ) (h : s' ≠ s) :
    (df.set s v).get s' = df.get s' :=
  getCol_setCol_ne df.cols s s' v h

lemma Df.set_get_mem (df : Df) (s : String) (h : s ∈ df.cols.map Prod.fst) :
    df.set s (df.get s) = df := by
  obtain ⟨n, cols⟩ := df
  show Df.mk n (setCol cols s (getCol cols s)) = Df.mk n cols
  rw [setCol_getCol_mem cols s h]

lemma Df.mem_set_self (df : Df) (s : String) (v : List ℤ) :
    s ∈ (df.set s v).cols.map Prod.fst :=
  mem_setCol_self df.cols s v

lemma Df.mem_set_of_mem (df : Df) (s s' : String) (v : List ℤ)
    (h : s' ∈ df.cols.map Prod.fst) : s' ∈ (df.set s v).cols.map Prod.fst :=
  mem_setCol_of_mem df.cols s s' v h

lemma sumColumn_congr {a b : Df} (qs : List String) (hn : a.n = b.n)
    (h : ∀ q ∈ qs, a.get q = b.get q) : sumColumn a qs = sumColumn b qs := by
  unfold sumColumn rowSumAt
  rw [hn]
  apply List.map_congr_left
  intro i _
  congr 1
  apply List.map_congr_left
  intro q hq
  rw [h q hq]

lemma mcnemarDf_n (df : Df) (imgQ sndQ : List String) (t : ℤ) :
    (mcnemarDf df imgQ sndQ t).n = df.n := rfl

lemma mcnemarDf_frame (df : Df) (imgQ sndQ : List String) (t : ℤ) (s : String)
    (h1 : s ≠ "image_correct") (h2 : s ≠ "sound_correct")
    (h3 : s ≠ "image_high") (h4 : s ≠ "sound_high") :
    (mcnemarDf df imgQ sndQ t).get s = df.get s := by
  simp only [mcnemarDf, addHigh, addCorrect]
  rw [Df.get_set_ne _ _ _ _ h4, Df.get_set_ne _ _ _ _ h3,
    Df.get_set_ne _ _ _ _ h2, Df.get_set_ne _ _ _ _ h1]

lemma mcnemarDf_gets (df : Df) (imgQ sndQ : List String) (t : ℤ)
    (hdisj : ∀ q ∈ imgQ ++ sndQ, q ≠ "image_correct" ∧ q ≠ "sound_correct" ∧
      q ≠ "image_high" ∧ q ≠ "sound_high") :
    (mcnemarDf df imgQ sndQ t).get "image_correct" = sumColumn df imgQ ∧
    (mcnemarDf df imgQ sndQ t).get "sound_correct" = sumColumn df sndQ ∧
    (mcnemarDf df imgQ sndQ t).get "image_high" = threshCol (sumColumn df imgQ) t ∧
    (mcnemarDf df imgQ sndQ t).get "sound_high" = threshCol (sumColumn df sndQ) t := by
  simp only [mcnemarDf, addHigh, addCorrect]
  set v1 := sumColumn df imgQ with hv1def
  set A := df.set "image_correct" v1 with hAdef
  have hv2 : sumColumn A sndQ = sumColumn df sndQ := by
    refine sumColumn_congr sndQ ?_ ?_
    · rfl
    · intro q hq
      exact Df.get_set_ne _ _ _ _ (hdisj q (List.mem_append.mpr (Or.inr hq))).1
  set B := A.set "sound_correct" (sumColumn A sndQ) with hBdef
  have hBic : B.get "image_correct" = v1 := by
    rw [hBdef, Df.get_set_ne _ _ _ _ (by decide), hAdef, Df.get_set_self]
  have hBsc : B.get "sound_correct" = sumColumn df sndQ := by
    rw [hBdef, Df.get_set_self, hv2]
  set C := B.set "image_high" (threshCol (B.get "image_correct") t) with hCdef
  have hCic : C.get "image_correct" = v1 := by
    rw [hCdef, Df.get_set_ne _ _ _ _ (by decide), hBic]
  have hCsc : C.get "sound_correct" = sumColumn df sndQ := by
    rw [hCdef, Df.get_set_ne _ _ _ _ (by decide), hBsc]
  have hCih : C.get "image_high" = threshCol v1 t := by
    rw [hCdef, Df.get_set_self, hBic]
  refine ⟨?_, ?_, ?_, ?_⟩
  · rw [Df.get_set_ne _ _ _ _ (by decide), hCic]
  · rw [Df.get_set_ne _ _ _ _ (by decide), hCsc]
  · rw [Df.get_set_ne _ _ _ _ (by decide), hCih]
  · rw [Df.get_set_self, hCsc]

lemma mcnemarDf_mem (df : Df) (imgQ sndQ : List String) (t : ℤ) :
    "image_correct" ∈ (mcnemarDf df imgQ sndQ t).cols.map Prod.fst ∧
    "sound_correct" ∈ (mcnemarDf df imgQ sndQ t).cols.map Prod.fst ∧
    "image_high" ∈ (mcnemarDf df imgQ sndQ t).cols.map Prod.fst ∧
    "sound_high" ∈ (mcnemarDf df imgQ sndQ t).cols.map Prod.fst := by
  simp only [mcnemarDf, addHigh, addCorrect]
  refine ⟨?_, ?_, ?_, ?_⟩
  · exact Df.mem_set_of_mem _ _ _ _ (Df.mem_set_of_mem _ _ _ _
      (Df.mem_set_of_mem _ _ _ _ (Df.mem_set_self _ _ _)))
  · exact Df.mem_set_of_mem _ _ _ _ (Df.mem_set_of_mem _ _ _ _ (Df.mem_set_self _ _ _))
  · exact Df.mem_set_of_mem _ _ _ _ (Df.mem_set_self _ _ _)
  · exact Df.mem_set_self _ _ _

lemma mcnemarDf_idem (df : Df) (imgQ sndQ : List String) (t : ℤ)
    (hdisj : ∀ q ∈ imgQ ++ sndQ, q ≠ "image_correct" ∧ q ≠ "sound_correct" ∧
      q ≠ "image_high" ∧ q ≠ "sound_high") :
    mcnemarDf (mcnemarDf df imgQ sndQ t) imgQ sndQ t = mcnemarDf df imgQ sndQ t := by
  obtain ⟨hic, hsc, hih, hsh⟩ := mcnemarDf_gets df imgQ sndQ t hdisj
  obtain ⟨mic, msc, mih, msh⟩ := mcnemarDf_mem df imgQ sndQ t
  set D := mcnemarDf df imgQ sndQ t with hD
  have hDn : D.n = df.n := by rw [hD]; exact mcnemarDf_n df imgQ sndQ t
  have hframe : ∀ q ∈ imgQ ++ sndQ, D.get q = df.get q := by
    intro q hq
    obtain ⟨e1, e2, e3, e4⟩ := hdisj q hq
    rw [hD]
    exact mcnemarDf_frame df imgQ sndQ t q e1 e2 e3 e4
  show addHigh (addCorrect D imgQ sndQ) t = D
  have hv1 : sumColumn D imgQ = sumColumn df imgQ :=
    sumColumn_congr imgQ hDn fun q hq => hframe q (List.mem_append.mpr (Or.inl hq))
  have hA : D.set "image_correct" (sumColumn D imgQ) = D := by
    rw [hv1, ← hic, Df.set_get_mem D _ mic]
  have hAC : addCorrect D imgQ sndQ = D := by
    simp only [addCorrect]
    rw [hA]
    have hv2 : sumColumn D sndQ = sumColumn df sndQ :=
      sumColumn_congr sndQ hDn fun q hq => hframe q (List.mem_append.mpr (Or.inr hq))
    rw [hv2, ← hsc, Df.set_get_mem D _ msc]
  rw [hAC]
  simp only [addHigh]
  have h3 : D.set "image_high" (threshCol (D.get "image_correct") t) = D := by
    rw [hic, ← hih, Df.set_get_mem D _ mih]
  rw [h3, hsc, ← hsh, Df.set_get_mem D _ msh]

/-- C9: calculate_mcnemar_test keeps the row count, changes no column
other than the four derived ones, returns the mutated table, and when the
question columns are disjoint from the derived column names a repeated
invocation on the already-mutated table leaves the table unchanged and
returns the identical contingency counts, statistic and p-value. -/
theorem mcnemar_frame_idempotent (chi2sf1 : ℚ → ℝ) (df : Df) (imgQ sndQ : List String)
    (t : ℤ)
    (hdisj : ∀ q ∈ imgQ ++ sndQ, q ≠ "image_correct" ∧ q ≠ "sound_correct" ∧
      q ≠ "image_high" ∧ q ≠ "sound_high") :
    (mcnemarDf df imgQ sndQ t).n = df.n ∧
    (∀ s : String, s ≠ "image_correct" → s ≠ "sound_correct" → s ≠ "image_high" →
      s ≠ "sound_high" → (mcnemarDf df imgQ sndQ t).get s = df.get s) ∧
    (calculate_mcnemar_test chi2sf1 df imgQ sndQ t).1 = mcnemarDf df imgQ sndQ t ∧
    calculate_mcnemar_test chi2sf1 (mcnemarDf df imgQ sndQ t) imgQ sndQ t =
      calculate_mcnemar_test chi2sf1 df imgQ sndQ t := by
  refine ⟨mcnemarDf_n df imgQ sndQ t,
    fun s h1 h2 h3 h4 => mcnemarDf_frame df imgQ sndQ t s h1 h2 h3 h4, rfl, ?_⟩
  have hidem := mcnemarDf_idem df imgQ sndQ t hdisj
  simp only [calculate_mcnemar_test, mcnemarCounts]
  rw [hidem]

/-- Closed witness for the C9 theorem on a concrete one-row table whose
question columns are disjoint from the derived names. -/
theorem mcnemar_frame_idempotent_witness :
    (mcnemarDf (Df.mk 1 [("q1", [1]), ("q2", [0])]) ["q1"] ["q2"] 3).n =
        (Df.mk 1 [("q1", [1]), ("q2", [0])]).n ∧
    (∀ s : String, s ≠ "image_correct" → s ≠ "sound_correct" → s ≠ "image_high" →
      s ≠ "sound_high" →
      (mcnemarDf (Df.mk 1 [("q1", [1]), ("q2", [0])]) ["q1"] ["q2"] 3).get s =
        (Df.mk 1 [("q1", [1]), ("q2", [0])]).get s) ∧
    (calculate_mcnemar_test (fun _ => 0) (Df.mk 1 [("q1", [1]), ("q2", [0])])
        ["q1"] ["q2"] 3).1 =
      mcnemarDf (Df.mk 1 [("q1", [1]), ("q2", [0])]) ["q1"] ["q2"] 3 ∧
    calculate_mcnemar_test (fun _ => 0)
        (mcnemarDf (Df.mk 1 [("q1", [1]), ("q2", [0])]) ["q1"] ["q2"] 3) ["q1"] ["q2"] 3 =
      calculate_mcnemar_test (fun _ => 0) (Df.mk 1 [("q1", [1]), ("q2", [0])])
        ["q1"] ["q2"] 3 :=
  mcnemar_frame_idempotent (fun _ => 0) (Df.mk 1 [("q1", [1]), ("q2", [0])])
    ["q1"] ["q2"] 3 (by decide)

/-- C5: the McNemar statistic equals (b - c)^2 / (b + c) with the special
case 0 when b + c = 0, it is 0 whenever b = c, the p-value is the
chi-square(1) survival function at the statistic, and it is 1 when
b = c = 0 (assuming the library survival function maps 0 to 1). -/
theorem mcnemar_statistic_formula (chi2sf1 : ℚ → ℝ) (df : Df) (imgQ sndQ : List String)
    (t : ℤ) (hsf : chi2sf1 0 = 1) :
    (calculate_mcnemar_test chi2sf1 df imgQ sndQ t).2.2.1 =
      (if (mcnemarCounts df imgQ sndQ t).2.1 + (mcnemarCounts df imgQ sndQ t).2.2.1 = 0
       then 0
       else (((mcnemarCounts df imgQ sndQ t).2.1 : ℚ) -
           ((mcnemarCounts df imgQ sndQ t).2.2.1 : ℚ)) ^ 2 /
         (((mcnemarCounts df imgQ sndQ t).2.1 : ℚ) +
           ((mcnemarCounts df imgQ sndQ t).2.2.1 : ℚ))) ∧
    ((mcnemarCounts df imgQ sndQ t).2.1 = (mcnemarCounts df imgQ sndQ t).2.2.1 →
      (calculate_mcnemar_test chi2sf1 df imgQ sndQ t).2.2.1 = 0) ∧
    (calculate_mcnemar_test chi2sf1 df imgQ sndQ t).2.2.2 =
      chi2sf1 ((calculate_mcnemar_test chi2sf1 df imgQ sndQ t).2.2.1) ∧
    ((mcnemarCounts df imgQ sndQ t).2.1 = 0 → (mcnemarCounts df imgQ sndQ t).2.2.1 = 0 →
      (calculate_mcnemar_test chi2sf1 df imgQ sndQ t).2.2.2 = 1) := by
  refine ⟨rfl, ?_, rfl, ?_⟩
  · intro hbc
    show mcnemarStatistic _ _ = 0
    rw [mcnemarStatistic, hbc]
    by_cases h0 : (mcnemarCounts df imgQ sndQ t).2.2.1 + (mcnemarCounts df imgQ sndQ t).2.2.1 = 0
    · rw [if_pos h0]
    · rw [if_neg h0, sub_self]
      norm_num
  · intro hb hc
    show chi2sf1 (mcnemarStatistic _ _) = 1
    rw [hb, hc]
    have h0 : mcnemarStatistic 0 0 = 0 := by rw [mcnemarStatistic]; norm_num
    rw [h0, hsf]

/-- Closed witness for the C5 theorem on the empty table, where
b = c = 0 and the p-value is 1. -/
theorem mcnemar_statistic_formula_witness :
    (calculate_mcnemar_test (fun _ => 1) (Df.mk 0 []) [] [] 3).2.2.1 =
      (if (mcnemarCounts (Df.mk 0 []) [] [] 3).2.1 +
          (mcnemarCounts (Df.mk 0 []) [] [] 3).2.2.1 = 0
       then 0
       else (((mcnemarCounts (Df.mk 0 []) [] [] 3).2.1 : ℚ) -
           ((mcnemarCounts (Df.mk 0 []) [] [] 3).2.2.1 : ℚ)) ^ 2 /
         (((mcnemarCounts (Df.mk 0 []) [] [] 3).2.1 : ℚ) +
           ((mcnemarCounts (Df.mk 0 []) [] [] 3).2.2.1 : ℚ))) ∧
    ((mcnemarCounts (Df.mk 0 []) [] [] 3).2.1 = (mcnemarCounts (Df.mk 0 []) [] [] 3).2.2.1 →
      (calculate_mcnemar_test (fun _ => 1) (Df.mk 0 []) [] [] 3).2.2.1 = 0) ∧
    (calculate_mcnemar_test (fun _ => 1) (Df.mk 0 []) [] [] 3).2.2.2 =
      (fun _ => (1 : ℝ)) ((calculate_mcnemar_test (fun _ => 1) (Df.mk 0 []) [] [] 3).2.2.1) ∧
    ((mcnemarCounts (Df.mk 0 []) [] [] 3).2.1 = 0 →
      (mcnemarCounts (Df.mk 0 []) [] [] 3).2.2.1 = 0 →
      (calculate_mcnemar_test (fun _ => 1) (Df.mk 0 []) [] [] 3).2.2.2 = 1) :=
  mcnemar_statistic_formula (fun _ => 1) (Df.mk 0 []) [] [] 3 rfl

/-- Modelled from the spec: the p-value reported by the Cochran wrapper is
derived from the chi-square distribution with k - 1 degrees of freedom,
evaluated at the Q statistic (the statsmodels computation is not part of
the repository). -/
noncomputable def cochranPValue (chi2cdf : ℝ → ℕ → ℝ) (rows : List (List ℚ)) : ℝ :=
  1 - chi2cdf ((cochransQ rows : ℚ) : ℝ) (cochranK rows - 1)

lemma getD_nonneg_of_all (r : List ℚ) (h : ∀ x ∈ r, 0 ≤ x) (j : ℕ) :
    0 ≤ r.getD j 0 := by
  by_cases hj : j < r.length
  · rw [List.getD_eq_getElem r 0 hj]
    exact h _ (List.getElem_mem hj)
  · rw [List.getD_eq_default r 0 (Nat.le_of_not_lt hj)]

lemma getD_row_all_nonneg (tab : List (List ℚ)) (h : ∀ r ∈ tab, ∀ x ∈ r, 0 ≤ x)
    (i : ℕ) : ∀ x ∈ tab.getD i [], 0 ≤ x := by
  by_cases hi : i < tab.length
  · rw [List.getD_eq_getElem tab [] hi]
    exact h _ (List.getElem_mem hi)
  · rw [List.getD_eq_default tab [] (Nat.le_of_not_lt hi)]
    intro x hx
    simp at hx

lemma chi2ContingencyStat_nonneg (tab : List (List ℚ))
    (h : ∀ r ∈ tab, ∀ x ∈ r, 0 ≤ x) : 0 ≤ chi2ContingencyStat tab := by
  unfold chi2ContingencyStat
  apply Finset.sum_nonneg
  intro i _
  apply Finset.sum_nonneg
  intro j _
  have hrs : 0 ≤ (tab.getD i []).sum := List.sum_nonneg (getD_row_all_nonneg tab h i)
  have hcs : 0 ≤ colSumQ tab j := by
    apply List.sum_nonneg
    intro x hx
    rw [List.mem_map] at hx
    obtain ⟨r, hr, rfl⟩ := hx
    exact getD_nonneg_of_all r (h r hr) j
  have hgt : 0 ≤ grandTotalQ tab := by
    apply List.sum_nonneg
    intro x hx
    rw [List.mem_map] at hx
    obtain ⟨r, hr, rfl⟩ := hx
    exact List.sum_nonneg (h r hr)
  exact div_nonneg (sq_nonneg _) (div_nonneg (mul_nonneg hrs hcs) hgt)

lemma mcnemarStatistic_nonneg (b c : ℕ) : 0 ≤ mcnemarStatistic b c := by
  unfold mcnemarStatistic
  by_cases h : b + c = 0
  · rw [if_pos h]
  · rw [if_neg h]
    apply div_nonneg (sq_nonneg _)
    positivity

lemma g_test_range (chi2cdf : ℝ → ℕ → ℝ) (col : List String)
    (hcdf : ∀ x d, 0 ≤ chi2cdf x d ∧ chi2cdf x d ≤ 1) :
    0 ≤ g_test chi2cdf col ∧ g_test chi2cdf col ≤ 1 := by
  simp only [g_test]
  obtain ⟨h0, h1⟩ := hcdf (gStatisticVec (observedCounts col)
    (List.replicate (observedCounts col).length
      (((observedCounts col).sum : ℝ) / ((observedCounts col).length : ℝ))))
    ((observedCounts col).length - 1)
  constructor <;> linarith

lemma g_test_pairwise_range (chi2cdf : ℝ → ℕ → ℝ) (col : List String) (c1 c2 : String)
    (hcdf : ∀ x d, 0 ≤ chi2cdf x d ∧ chi2cdf x d ≤ 1) :
    0 ≤ g_test_pairwise chi2cdf col c1 c2 ∧ g_test_pairwise chi2cdf col c1 c2 ≤ 1 := by
  simp only [g_test_pairwise]
  obtain ⟨h0, h1⟩ := hcdf (gStatisticVec (observedPair col c1 c2)
    (List.replicate 2 ((col.length : ℝ) / 3))) 1
  constructor <;> linarith

lemma perform_chi2_test_range (chi2cdfq : ℚ → ℕ → ℝ) (col : List String)
    (hcdfq : ∀ x d, 0 ≤ chi2cdfq x d ∧ chi2cdfq x d ≤ 1) :
    0 ≤ perform_chi2_test chi2cdfq col ∧ perform_chi2_test chi2cdfq col ≤ 1 := by
  simp only [perform_chi2_test]
  obtain ⟨h0, h1⟩ := hcdfq (chi2ContingencyStat
    [(observedCounts col).map fun o : ℕ => (o : ℚ),
      List.replicate ((observedCounts col).map fun o : ℕ => (o : ℚ)).length
        ((col.length : ℚ) / ((((observedCounts col).map fun o : ℕ => (o : ℚ)).length : ℕ) : ℚ))])
    (chi2ContingencyDof
      [(observedCounts col).map fun o : ℕ => (o : ℚ),
        List.replicate ((observedCounts col).map fun o : ℕ => (o : ℚ)).length
          ((col.length : ℚ) / ((((observedCounts col).map fun o : ℕ => (o : ℚ)).length : ℕ) : ℚ))])
  constructor <;> linarith

lemma cochranPValue_range (chi2cdf : ℝ → ℕ → ℝ) (rows : List (List ℚ))
    (hcdf : ∀ x d, 0 ≤ chi2cdf x d ∧ chi2cdf x d ≤ 1) :
    0 ≤ cochranPValue chi2cdf rows ∧ cochranPValue chi2cdf rows ≤ 1 := by
  unfold cochranPValue
  obtain ⟨h0, h1⟩ := hcdf ((cochransQ rows : ℚ) : ℝ) (cochranK rows - 1)
  constructor <;> linarith

lemma gofTable_nonneg (col : List String) :
    ∀ r ∈ [(observedCounts col).map fun o : ℕ => (o : ℚ),
      List.replicate ((observedCounts col).map fun o : ℕ => (o : ℚ)).length
        ((col.length : ℚ) / ((((observedCounts col).map fun o : ℕ => (o : ℚ)).length : ℕ) : ℚ))],
      ∀ x ∈ r, 0 ≤ x := by
  intro r hr x hx
  rcases List.mem_cons.mp hr with h | h
  · subst h
    rw [List.mem_map] at hx
    obtain ⟨o, _, rfl⟩ := hx
    exact Nat.cast_nonneg o
  · rcases List.mem_cons.mp h with h' | h'
    · subst h'
      have := List.eq_of_mem_replicate hx
      subst this
      positivity
    · simp at h'

/-- C8 amended: on valid inputs the omnibus G statistic, the Cochran Q
statistic, the contingency chi-square statistic and the McNemar statistic
are nonnegative, and every returned p-value lies in [0, 1] whenever the
library chi-square CDF and survival functions take values in [0, 1]; the
pairwise G statistic is exempt because it can be negative. -/
theorem stats_outputs_ranges
    (chi2cdf : ℝ → ℕ → ℝ) (chi2cdfq : ℚ → ℕ → ℝ) (chi2sf1 : ℚ → ℝ)
    (hcdf : ∀ x d, 0 ≤ chi2cdf x d ∧ chi2cdf x d ≤ 1)
    (hcdfq : ∀ x d, 0 ≤ chi2cdfq x d ∧ chi2cdfq x d ≤ 1)
    (hsf : ∀ q, 0 ≤ chi2sf1 q ∧ chi2sf1 q ≤ 1)
    (col colp colc : List String) (c1 c2 : String)
    (rows : List (List ℚ)) (hbin : binaryCheck rows = true)
    (hrect : ∀ r ∈ rows, r.length = cochranK rows)
    (df : Df) (imgQ sndQ : List String) (t : ℤ) (b c : ℕ) :
    0 ≤ gStatisticVec (observedCounts col)
        (List.replicate (observedCounts col).length
          (((observedCounts col).sum : ℝ) / ((observedCounts col).length : ℝ))) ∧
    (0 ≤ g_test chi2cdf col ∧ g_test chi2cdf col ≤ 1) ∧
    (0 ≤ g_test_pairwise chi2cdf colp c1 c2 ∧ g_test_pairwise chi2cdf colp c1 c2 ≤ 1) ∧
    0 ≤ cochransQ rows ∧
    (0 ≤ cochranPValue chi2cdf rows ∧ cochranPValue chi2cdf rows ≤ 1) ∧
    0 ≤ chi2ContingencyStat
        [(observedCounts colc).map fun o : ℕ => (o : ℚ),
          List.replicate ((observedCounts colc).map fun o : ℕ => (o : ℚ)).length
            ((colc.length : ℚ) /
              ((((observedCounts colc).map fun o : ℕ => (o : ℚ)).length : ℕ) : ℚ))] ∧
    (0 ≤ perform_chi2_test chi2cdfq colc ∧ perform_chi2_test chi2cdfq colc ≤ 1) ∧
    0 ≤ mcnemarStatistic b c ∧
    (0 ≤ (calculate_mcnemar_test chi2sf1 df imgQ sndQ t).2.2.2 ∧
      (calculate_mcnemar_test chi2sf1 df imgQ sndQ t).2.2.2 ≤ 1) := by
  refine ⟨?_, g_test_range chi2cdf col hcdf,
    g_test_pairwise_range chi2cdf colp c1 c2 hcdf,
    cochransQ_nonneg rows ((binaryCheck_iff rows).mp hbin) hrect,
    cochranPValue_range chi2cdf rows hcdf,
    chi2ContingencyStat_nonneg _ (gofTable_nonneg colc),
    perform_chi2_test_range chi2cdfq colc hcdfq,
    mcnemarStatistic_nonneg b c, ?_⟩
  · rw [gStatisticVec_replicate]
    exact gTestG_nonneg _
  · exact hsf _

/-- Closed witness for the amended C8 theorem at concrete inputs and
concrete library functions with values in [0, 1]. -/
theorem stats_outputs_ranges_witness :
    0 ≤ gStatisticVec (observedCounts ["A"])
        (List.replicate (observedCounts ["A"]).length
          (((observedCounts ["A"]).sum : ℝ) / ((observedCounts ["A"]).length : ℝ))) ∧
    (0 ≤ g_test (fun _ _ => 0) ["A"] ∧ g_test (fun _ _ => 0) ["A"] ≤ 1) ∧
    (0 ≤ g_test_pairwise (fun _ _ => 0) ["A"] "A" "B" ∧
      g_test_pairwise (fun _ _ => 0) ["A"] "A" "B" ≤ 1) ∧
    0 ≤ cochransQ [[1]] ∧
    (0 ≤ cochranPValue (fun _ _ => 0) [[1]] ∧ cochranPValue (fun _ _ => 0) [[1]] ≤ 1) ∧
    0 ≤ chi2ContingencyStat
        [(observedCounts ["A"]).map fun o : ℕ => (o : ℚ),
          List.replicate ((observedCounts ["A"]).map fun o : ℕ => (o : ℚ)).length
            (((["A"] : List String).length : ℚ) /
              ((((observedCounts ["A"]).map fun o : ℕ => (o : ℚ)).length : ℕ) : ℚ))] ∧
    (0 ≤ perform_chi2_test (fun _ _ => 0) ["A"] ∧
      perform_chi2_test (fun _ _ => 0) ["A"] ≤ 1) ∧
    0 ≤ mcnemarStatistic 0 0 ∧
    (0 ≤ (calculate_mcnemar_test (fun _ => 0) (Df.mk 0 []) [] [] 0).2.2.2 ∧
      (calculate_mcnemar_test (fun _ => 0) (Df.mk 0 []) [] [] 0).2.2.2 ≤ 1) :=
  stats_outputs_ranges (fun _ _ => 0) (fun _ _ => 0) (fun _ => 0)
    (fun _ _ => ⟨le_refl 0, zero_le_one⟩) (fun _ _ => ⟨le_refl 0, zero_le_one⟩)
    (fun _ => ⟨le_refl 0, zero_le_one⟩)
    ["A"] ["A"] ["A"] "A" "B" [[1]] (by decide) (by decide)
    (Df.mk 0 []) [] [] 0 0 0
